import Mathlib

-- Verification development for the research-paper pipeline in src/main.py.
-- Text is modelled as List Char; strings coming from Python literals are
-- converted with `str`.  Fallible external collaborators (the Tavily client,
-- the LLM, the docx and reportlab libraries) are modelled by `Res` outcomes
-- supplied in an `Env` record; the clock (datetime.now().strftime) and the
-- working directory (os.getcwd()) are modelled as environment strings.

def str (s : String) : List Char := s.toList

-- Apostrophe character (used by the research-result format string).
def apos : Char := '\x27'

-- Python str.strip() whitespace set (ASCII model).
def isSpace (c : Char) : Bool :=
  c = ' ' || c = '\t' || c = '\n' || c = '\r' || c = '\x0b' || c = '\x0c'

-- Python line.strip(): drop leading and trailing whitespace.
def strip (l : List Char) : List Char :=
  ((l.dropWhile isSpace).reverse.dropWhile isSpace).reverse

-- Python s.startswith(p), on char lists.
def startsWith : List Char → List Char → Bool
  | [], _ => true
  | _ :: _, [] => false
  | p :: ps, c :: cs => p == c && startsWith ps cs

-- Python `needle in hay` substring test.
def containsText (needle hay : List Char) : Bool :=
  (List.range (hay.length + 1)).any (fun i => startsWith needle (hay.drop i))

-- Python hay.replace(pat, rep): replace every occurrence, left to right,
-- non-overlapping (total for an empty pattern, which the source never uses).
def replaceAll (pat rep : List Char) : List Char → List Char
  | [] => []
  | c :: rest =>
      if (pat.length != 0) && startsWith pat (c :: rest) then
        rep ++ replaceAll pat rep ((c :: rest).drop pat.length)
      else
        c :: replaceAll pat rep rest
termination_by l => l.length
decreasing_by
  · simp only [List.length_drop, List.length_cons]
    have hp : pat.length ≠ 0 := by
      rcases Bool.and_eq_true .. ▸ ‹((pat.length != 0) && startsWith pat (c :: rest)) = true› with ⟨h1, _⟩
      simpa using h1
    omega
  · simp

-- Python content.split('\n') (always returns at least one chunk).
def splitLines : List Char → List (List Char)
  | [] => [[]]
  | c :: rest =>
      if c = '\n' then [] :: splitLines rest
      else
        match splitLines rest with
        | [] => [[c]]
        | l :: ls => (c :: l) :: ls

-- '\n'.join, the inverse used to reconstruct a text from parsed lines.
def joinLines : List (List Char) → List Char
  | [] => []
  | [x] => x
  | x :: xs => x ++ '\n' :: joinLines xs

-- A rendered content block: heading with its level, or a body paragraph.
inductive Block where
  | heading (level : Nat) (text : List Char)
  | para (text : List Char)
deriving DecidableEq

-- Line classification of the rich-text (docx) emission pass of
-- create_documents (src/main.py lines 85-101): strip the line, recognise
-- the four space-terminated hash markers, emit a paragraph for any other
-- non-blank line not beginning with '#', and drop everything else.
def classifyDocx (rawLine : List Char) : Option Block :=
  let line := strip rawLine
  if line.isEmpty then none
  else if startsWith ['#', ' '] line then some (.heading 1 (line.drop 2))
  else if startsWith ['#', '#', ' '] line then some (.heading 2 (line.drop 3))
  else if startsWith ['#', '#', '#', ' '] line then some (.heading 3 (line.drop 4))
  else if startsWith ['#', '#', '#', '#', ' '] line then some (.heading 4 (line.drop 5))
  else if !line.isEmpty && !(startsWith ['#'] line) then some (.para line)
  else none

-- Line classification of the printable (PDF) emission pass of
-- create_documents (src/main.py lines 121-136).  A blank line appends a
-- Spacer (spacing only, not a content block, hence none here); note the
-- absence of a four-hash branch.
def classifyPdf (rawLine : List Char) : Option Block :=
  let line := strip rawLine
  if line.isEmpty then none
  else if startsWith ['#', ' '] line then some (.heading 1 (line.drop 2))
  else if startsWith ['#', '#', ' '] line then some (.heading 2 (line.drop 3))
  else if startsWith ['#', '#', '#', ' '] line then some (.heading 3 (line.drop 4))
  else if !line.isEmpty && !(startsWith ['#'] line) then some (.para line)
  else none

-- Ordered block sequence each emitter renders from a content text.
def docxBlocks (content : List Char) : List Block :=
  (splitLines content).filterMap classifyDocx

def pdfBlocks (content : List Char) : List Block :=
  (splitLines content).filterMap classifyPdf

-- True for every block except a level-4 heading.
def nonH4 : Block → Bool
  | .heading l _ => l != 4
  | .para _ => true

-- Reapply the original marker of a block (used by the idempotence claim).
def renderBlock : Block → List Char
  | .heading l t => List.replicate l '#' ++ ' ' :: t
  | .para t => t

def reconstruct (bs : List Block) : List Char :=
  joinLines (bs.map renderBlock)

-- Well-formedness invariant satisfied by every block produced by
-- classifyDocx when applied to a newline-free line.
def wfBlock : Block → Prop
  | .heading l t =>
      (l = 1 ∨ l = 2 ∨ l = 3 ∨ l = 4) ∧ t ≠ [] ∧
      (∀ c, t.getLast? = some c → isSpace c = false) ∧ '\n' ∉ t
  | .para t => t ≠ [] ∧ strip t = t ∧ t.head? ≠ some '#' ∧ '\n' ∉ t

-- The marker test used by the heading-boundary claim: does the (stripped)
-- line begin with one of the four recognised patterns?
def startsWithMarker (s : List Char) : Bool :=
  startsWith ['#', ' '] s || startsWith ['#', '#', ' '] s ||
  startsWith ['#', '#', '#', ' '] s || startsWith ['#', '#', '#', '#', ' '] s

-- Filename sanitisation of create_documents (src/main.py lines 74-75):
-- keep alphanumerics, spaces, hyphens and underscores, convert spaces to
-- underscores, truncate to 30 characters.  (Python's Unicode isalnum is
-- modelled by the ASCII Char.isAlphanum.)
def sanitizeTopic (topic : List Char) : List Char :=
  ((topic.filter (fun c => c.isAlphanum || c == ' ' || c == '-' || c == '_')).map
    (fun c => if c == ' ' then '_' else c)).take 30

-- Outcome of a call into an external collaborator: a value, or the message
-- of the exception it raised.
inductive Res (α : Type) where
  | ok (val : α)
  | err (msg : List Char)
deriving DecidableEq

-- One Tavily search result ({title, content, url}).
structure TavilyItem where
  title : List Char
  content : List Char
  url : List Char
deriving DecidableEq

-- Environment of one run: outcomes of the external collaborators plus the
-- clock string and working directory.
structure Env where
  tavily : Res (List TavilyItem)
  llm : Res (List Char)
  docx : Res Unit
  pdfLib : Res Unit
  ts : List Char
  cwd : List Char

def fmtItem (idx : Nat) (r : TavilyItem) : List Char :=
  (Nat.repr idx).toList ++ str ". **" ++ r.title ++ str "**\n   Content: " ++
    r.content.take 600 ++ str "...\n   Source: " ++ r.url ++ str "\n\n"

-- research_with_tavily (src/main.py lines 44-64): formats the search
-- results, or converts any exception into the fallback bundle.
def research_with_tavily (tavilyOut : Res (List TavilyItem)) (topic : List Char) : List Char :=
  match tavilyOut with
  | .ok results =>
      (List.enumFrom 1 results).foldl (fun acc p => acc ++ fmtItem p.1 p.2)
        (str "Research Results for " ++ [apos] ++ topic ++ [apos] ++ str ":\n\n")
  | .err e => str "Research failed: " ++ e ++ str ". Using AI knowledge instead."

structure DocPaths where
  document_path : List Char
  pdf_path : List Char
deriving DecidableEq

-- create_documents (src/main.py lines 66-152).  The block sequences the two
-- emitters write into the artifacts are modelled by docxBlocks/pdfBlocks;
-- failures of the docx library (outer try) and of the reportlab build
-- (inner try) are modelled by env.docx and env.pdfLib.
def create_documents (env : Env) (content topic : List Char) : DocPaths :=
  match env.docx with
  | .err e =>
      { document_path := str "Document creation failed: " ++ e,
        pdf_path := str "PDF creation failed: " ++ e }
  | .ok _ =>
      let safe_topic := sanitizeTopic topic
      let filename := str "research_paper_" ++ safe_topic ++ str "_" ++ env.ts ++ str ".docx"
      let document_path := (env.cwd ++ str "/doc") ++ str "/" ++ filename
      match env.pdfLib with
      | .err e => { document_path := document_path, pdf_path := str "PDF creation failed: " ++ e }
      | .ok _ =>
          { document_path := document_path,
            pdf_path := replaceAll (str ".docx") (str ".pdf") document_path }

-- ResearchState (src/main.py lines 34-41); the `messages` channel is never
-- read by any node and is omitted.
structure ResearchState where
  topic : List Char
  research_data : List Char
  paper_content : List Char
  document_path : List Char
  pdf_path : List Char
  step : String
deriving DecidableEq

def initialState (topic : List Char) : ResearchState :=
  { topic := topic, research_data := [], paper_content := [],
    document_path := [], pdf_path := [], step := "start" }

-- SimpleResearchAgent._research_node (lines 185-198).
def research_node (env : Env) (s : ResearchState) : ResearchState :=
  { s with research_data := research_with_tavily env.tavily s.topic,
           step := "research_complete" }

-- SimpleResearchAgent._write_node (lines 200-238): builds the writing
-- prompt and invokes the LLM; an exception escapes the node uncaught.
def write_node (env : Env) (s : ResearchState) : Res ResearchState :=
  match env.llm with
  | .err e => .err e
  | .ok content => .ok { s with paper_content := content, step := "writing_complete" }

-- SimpleResearchAgent._create_docs_node (lines 240-256).
def create_docs_node (env : Env) (s : ResearchState) : ResearchState :=
  let r := create_documents env s.paper_content s.topic
  { s with document_path := r.document_path, pdf_path := r.pdf_path,
           step := "documents_complete" }

-- self.app.invoke: the compiled linear workflow
-- START → research → write → create_docs → END (lines 167-183).
def app_invoke (env : Env) (s0 : ResearchState) : Res ResearchState :=
  let s1 := research_node env s0
  match write_node env s1 with
  | .err e => .err e
  | .ok s2 => .ok (create_docs_node env s2)

-- The dict returned by create_research_paper / edit_paper; absent keys are
-- modelled as none.
structure RunResult where
  topic : List Char
  document_path : Option (List Char)
  pdf_path : Option (List Char)
  paper_content : Option (List Char)
  error : Option (List Char)
  status : String
deriving DecidableEq

-- SimpleResearchAgent.create_research_paper (lines 258-291).
def create_research_paper (env : Env) (topic : List Char) : RunResult :=
  match app_invoke env (initialState topic) with
  | .ok final =>
      { topic := topic,
        document_path := some final.document_path,
        pdf_path := some final.pdf_path,
        paper_content := some final.paper_content,
        error := none,
        status := if final.step = "documents_complete" then "completed" else "partial" }
  | .err e =>
      { topic := topic, document_path := none, pdf_path := none,
        paper_content := none, error := some e, status := "failed" }

-- Sequence of session states visited by one workflow invocation, in order;
-- the trace ends where an uncaught stage exception aborts the run.
def runTrace (env : Env) (topic : List Char) : List ResearchState :=
  let s0 := initialState topic
  let s1 := research_node env s0
  match write_node env s1 with
  | .err _ => [s0, s1]
  | .ok s2 => [s0, s1, s2, create_docs_node env s2]

def canonicalSteps : List String :=
  ["start", "research_complete", "writing_complete", "documents_complete"]

-- External calls observable during a revision round.
inductive ExtCall where
  | llmInvoke
  | renderDocs
deriving DecidableEq

-- SimpleResearchAgent.edit_paper (lines 293-321): builds the editing prompt
-- from the change request and current content, always invokes the LLM, then
-- re-renders.  The second component records the external calls performed.
def edit_paper (env : Env) (current_content change_request topic : List Char) :
    Res RunResult × List ExtCall :=
  match env.llm with
  | .err e => (.err e, [ExtCall.llmInvoke])
  | .ok edited =>
      let docs := create_documents env edited topic
      (.ok { topic := topic,
             document_path := some docs.document_path,
             pdf_path := some docs.pdf_path,
             paper_content := some edited,
             error := none,
             status := "completed" },
       [ExtCall.llmInvoke, ExtCall.renderDocs])

-- One round of the interactive change loop in main (lines 362-398): the
-- raw input is stripped; an empty request is rejected with a message before
-- any call; otherwise edit_paper runs, its failure keeps the prior result.
def main_edit_round (env : Env) (current_result : RunResult) (raw_request : List Char) :
    RunResult × List ExtCall :=
  let change_request := strip raw_request
  if change_request.isEmpty then (current_result, [])
  else
    match edit_paper env (current_result.paper_content.getD []) change_request
        current_result.topic with
    | (.ok r, calls) => (if r.status = "completed" then r else current_result, calls)
    | (.err _, calls) => (current_result, calls)

-- ## Helper lemmas

theorem startsWith_iff : ∀ (p s : List Char), startsWith p s = true ↔ ∃ t, s = p ++ t := by
  intro p
  induction p with
  | nil => intro s; simp [startsWith]
  | cons a ps ih =>
    intro s
    cases s with
    | nil => simp [startsWith]
    | cons c cs =>
      simp only [startsWith, Bool.and_eq_true, beq_iff_eq, ih, List.cons_append,
        List.cons.injEq]
      constructor
      · rintro ⟨rfl, t, rfl⟩; exact ⟨t, rfl, rfl⟩
      · rintro ⟨t, rfl, rfl⟩; exact ⟨rfl, t, rfl⟩

theorem head_dropWhile_not : ∀ (l : List Char) (c : Char),
    (l.dropWhile isSpace).head? = some c → isSpace c = false := by
  intro l
  induction l with
  | nil => intro c h; simp at h
  | cons a t ih =>
    intro c h
    rw [List.dropWhile_cons] at h
    by_cases ha : isSpace a = true
    · rw [if_pos ha] at h; exact ih c h
    · rw [if_neg ha] at h
      simp only [List.head?_cons, Option.some.injEq] at h
      subst h; simpa using ha

theorem getLast?_cons_ne (a : Char) (t : List Char) (ht : t ≠ []) :
    (a :: t).getLast? = t.getLast? := by
  cases t with
  | nil => exact absurd rfl ht
  | cons b t' => simp [List.getLast?_cons_cons]

theorem getLast_dropWhile : ∀ (l : List Char), l.dropWhile isSpace ≠ [] →
    (l.dropWhile isSpace).getLast? = l.getLast? := by
  intro l
  induction l with
  | nil => intro h; simp at h
  | cons a t ih =>
    intro h
    rw [List.dropWhile_cons] at h ⊢
    by_cases ha : isSpace a = true
    · rw [if_pos ha] at h ⊢
      have ht : t ≠ [] := by
        intro he; subst he; simp [List.dropWhile] at h
      rw [ih h, getLast?_cons_ne a t ht]
    · rw [if_neg ha]

theorem strip_getLast_not_space (l : List Char) (c : Char)
    (h : (strip l).getLast? = some c) : isSpace c = false := by
  unfold strip at h
  rw [List.getLast?_reverse] at h
  exact head_dropWhile_not _ c h

theorem strip_head_not_space (l : List Char) (c : Char)
    (h : (strip l).head? = some c) : isSpace c = false := by
  unfold strip at h
  rw [List.head?_reverse] at h
  have hne : ((l.dropWhile isSpace).reverse).dropWhile isSpace ≠ [] := by
    intro he; rw [he] at h; simp at h
  rw [getLast_dropWhile _ hne, List.getLast?_reverse] at h
  exact head_dropWhile_not _ c h

theorem dropWhile_eq_self_of_head (l : List Char)
    (h : ∀ c, l.head? = some c → isSpace c = false) : l.dropWhile isSpace = l := by
  cases l with
  | nil => simp
  | cons a t => rw [List.dropWhile_cons]; simp [h a rfl]

theorem strip_eq_self (l : List Char)
    (h1 : ∀ c, l.head? = some c → isSpace c = false)
    (h2 : ∀ c, l.getLast? = some c → isSpace c = false) : strip l = l := by
  unfold strip
  rw [dropWhile_eq_self_of_head l h1]
  rw [dropWhile_eq_self_of_head l.reverse
    (fun c hc => h2 c (by rwa [List.head?_reverse] at hc))]
  exact List.reverse_reverse l

theorem strip_idem (l : List Char) : strip (strip l) = strip l :=
  strip_eq_self _ (strip_head_not_space l) (strip_getLast_not_space l)

theorem strip_subset (l : List Char) : ∀ c, c ∈ strip l → c ∈ l := by
  intro c hc
  unfold strip at hc
  rw [List.mem_reverse] at hc
  have hc2 : c ∈ (l.dropWhile isSpace).reverse := (List.dropWhile_sublist _).subset hc
  rw [List.mem_reverse] at hc2
  exact (List.dropWhile_sublist _).subset hc2

theorem splitLines_no_newline : ∀ (l x : List Char), x ∈ splitLines l → '\n' ∉ x := by
  intro l
  induction l with
  | nil =>
    intro x hx
    simp only [splitLines, List.mem_singleton] at hx
    subst hx; simp
  | cons c rest ih =>
    intro x hx
    simp only [splitLines] at hx
    by_cases hc : c = '\n'
    · rw [if_pos hc] at hx
      rcases List.mem_cons.mp hx with h | h
      · subst h; simp
      · exact ih x h
    · rw [if_neg hc] at hx
      cases hsp : splitLines rest with
      | nil =>
        rw [hsp] at hx
        simp only [List.mem_singleton] at hx
        subst hx
        simp only [List.mem_singleton]
        exact fun h => hc h.symm
      | cons lh lt =>
        rw [hsp] at hx
        rcases List.mem_cons.mp hx with h | h
        · subst h
          intro hm
          rcases List.mem_cons.mp hm with h' | h'
          · exact hc h'.symm
          · exact ih lh (hsp ▸ List.mem_cons_self lh lt) h'
        · exact ih x (hsp ▸ List.mem_cons_of_mem lh h)

theorem splitLines_single : ∀ (x : List Char), '\n' ∉ x → splitLines x = [x] := by
  intro x
  induction x with
  | nil => intro _; rfl
  | cons c t ih =>
    intro hx
    have hc : ¬ c = '\n' := fun h => hx (h ▸ List.mem_cons_self c t)
    have ht : '\n' ∉ t := fun h => hx (List.mem_cons_of_mem _ h)
    simp only [splitLines]
    rw [if_neg hc, ih ht]

theorem splitLines_append (x r : List Char) (hx : '\n' ∉ x) :
    splitLines (x ++ '\n' :: r) = x :: splitLines r := by
  induction x with
  | nil => simp [splitLines]
  | cons c t ih =>
    have hc : ¬ c = '\n' := fun h => hx (h ▸ List.mem_cons_self c t)
    have ht : '\n' ∉ t := fun h => hx (List.mem_cons_of_mem _ h)
    simp only [List.cons_append, splitLines, List.append_eq]
    rw [if_neg hc, ih ht]

theorem splitLines_joinLines : ∀ (xs : List (List Char)), xs ≠ [] →
    (∀ x ∈ xs, '\n' ∉ x) → splitLines (joinLines xs) = xs := by
  intro xs
  induction xs with
  | nil => intro h; exact absurd rfl h
  | cons x ys ih =>
    intro _ hall
    cases ys with
    | nil => simpa [joinLines] using splitLines_single x (hall x (by simp))
    | cons y zs =>
      show splitLines (x ++ '\n' :: joinLines (y :: zs)) = x :: (y :: zs)
      rw [splitLines_append x _ (hall x (by simp))]
      rw [ih (by simp) (fun z hz => hall z (List.mem_cons_of_mem _ hz))]

theorem getLast?_isSome_of_ne_nil : ∀ (t : List Char), t ≠ [] → ∃ x, t.getLast? = some x := by
  intro t
  induction t with
  | nil => intro h; exact absurd rfl h
  | cons b bs ih =>
    intro _
    cases bs with
    | nil => exact ⟨b, rfl⟩
    | cons c cc =>
      obtain ⟨x, hx⟩ := ih (by simp)
      exact ⟨x, by rw [List.getLast?_cons_cons]; exact hx⟩

theorem getLast?_append_ne (pre t : List Char) (ht : t ≠ []) :
    (pre ++ t).getLast? = t.getLast? := by
  obtain ⟨x, hx⟩ := getLast?_isSome_of_ne_nil t ht
  rw [List.getLast?_append, hx]
  rfl

theorem heading_text_wf (raw pre t : List Char)
    (hpre_last : pre.getLast? = some ' ')
    (hnl : '\n' ∉ strip raw) (ht : strip raw = pre ++ t) :
    t ≠ [] ∧ (∀ c, t.getLast? = some c → isSpace c = false) ∧ '\n' ∉ t := by
  have htne : t ≠ [] := by
    intro he
    subst he
    rw [List.append_nil] at ht
    have := strip_getLast_not_space raw ' ' (by rw [ht]; exact hpre_last)
    simp [isSpace] at this
  refine ⟨htne, ?_, ?_⟩
  · intro c hc
    apply strip_getLast_not_space raw c
    rw [ht, getLast?_append_ne pre t htne]
    exact hc
  · intro hm
    exact hnl (by rw [ht]; exact List.mem_append_right pre hm)

theorem classifyDocx_wf (raw : List Char) (hnl : '\n' ∉ raw) (b : Block)
    (h : classifyDocx raw = some b) : wfBlock b := by
  have hnl2 : '\n' ∉ strip raw := fun hm => hnl (strip_subset raw _ hm)
  simp only [classifyDocx] at h
  split_ifs at h with h0 h1 h2 h3 h4 h5
  · obtain ⟨t, ht⟩ := (startsWith_iff _ _).mp h1
    have hd : (strip raw).drop 2 = t := by rw [ht]; rfl
    simp only [Option.some.injEq] at h
    subst h
    rw [hd]
    obtain ⟨htne, hlast, hnlt⟩ := heading_text_wf raw ['#', ' '] t rfl hnl2 ht
    exact ⟨Or.inl rfl, htne, hlast, hnlt⟩
  · obtain ⟨t, ht⟩ := (startsWith_iff _ _).mp h2
    have hd : (strip raw).drop 3 = t := by rw [ht]; rfl
    simp only [Option.some.injEq] at h
    subst h
    rw [hd]
    obtain ⟨htne, hlast, hnlt⟩ := heading_text_wf raw ['#', '#', ' '] t rfl hnl2 ht
    exact ⟨Or.inr (Or.inl rfl), htne, hlast, hnlt⟩
  · obtain ⟨t, ht⟩ := (startsWith_iff _ _).mp h3
    have hd : (strip raw).drop 4 = t := by rw [ht]; rfl
    simp only [Option.some.injEq] at h
    subst h
    rw [hd]
    obtain ⟨htne, hlast, hnlt⟩ := heading_text_wf raw ['#', '#', '#', ' '] t rfl hnl2 ht
    exact ⟨Or.inr (Or.inr (Or.inl rfl)), htne, hlast, hnlt⟩
  · obtain ⟨t, ht⟩ := (startsWith_iff _ _).mp h4
    have hd : (strip raw).drop 5 = t := by rw [ht]; rfl
    simp only [Option.some.injEq] at h
    subst h
    rw [hd]
    obtain ⟨htne, hlast, hnlt⟩ := heading_text_wf raw ['#', '#', '#', '#', ' '] t rfl hnl2 ht
    exact ⟨Or.inr (Or.inr (Or.inr rfl)), htne, hlast, hnlt⟩
  · simp only [Option.some.injEq] at h
    subst h
    rw [Bool.and_eq_true, Bool.not_eq_true', Bool.not_eq_true'] at h5
    refine ⟨?_, strip_idem raw, ?_, hnl2⟩
    · intro he; rw [he] at h5; simp at h5
    · intro hh
      cases hs : strip raw with
      | nil => rw [hs] at hh; simp at hh
      | cons c cs =>
        rw [hs] at hh
        simp only [List.head?_cons, Option.some.injEq] at hh
        subst hh
        have h52 := h5.2
        rw [hs] at h52
        simp [startsWith] at h52

theorem classifyDocx_renderBlock (b : Block) (hb : wfBlock b) :
    classifyDocx (renderBlock b) = some b := by
  cases b with
  | heading l t =>
    obtain ⟨hl, hne, hlast, _⟩ := hb
    rcases hl with rfl | rfl | rfl | rfl
    · have hstrip : strip ('#' :: ' ' :: t) = '#' :: ' ' :: t := by
        apply strip_eq_self
        · intro c hc; simp only [List.head?_cons, Option.some.injEq] at hc; subst hc; rfl
        · intro c hc
          rw [getLast?_cons_ne _ _ (by simp), getLast?_cons_ne _ _ hne] at hc
          exact hlast c hc
      show classifyDocx ('#' :: ' ' :: t) = some (.heading 1 t)
      simp only [classifyDocx]
      rw [hstrip]
      exact rfl
    · have hstrip : strip ('#' :: '#' :: ' ' :: t) = '#' :: '#' :: ' ' :: t := by
        apply strip_eq_self
        · intro c hc; simp only [List.head?_cons, Option.some.injEq] at hc; subst hc; rfl
        · intro c hc
          rw [getLast?_cons_ne _ _ (by simp), getLast?_cons_ne _ _ (by simp),
            getLast?_cons_ne _ _ hne] at hc
          exact hlast c hc
      show classifyDocx ('#' :: '#' :: ' ' :: t) = some (.heading 2 t)
      simp only [classifyDocx]
      rw [hstrip]
      exact rfl
    · have hstrip : strip ('#' :: '#' :: '#' :: ' ' :: t) = '#' :: '#' :: '#' :: ' ' :: t := by
        apply strip_eq_self
        · intro c hc; simp only [List.head?_cons, Option.some.injEq] at hc; subst hc; rfl
        · intro c hc
          rw [getLast?_cons_ne _ _ (by simp), getLast?_cons_ne _ _ (by simp),
            getLast?_cons_ne _ _ (by simp), getLast?_cons_ne _ _ hne] at hc
          exact hlast c hc
      show classifyDocx ('#' :: '#' :: '#' :: ' ' :: t) = some (.heading 3 t)
      simp only [classifyDocx]
      rw [hstrip]
      exact rfl
    · have hstrip : strip ('#' :: '#' :: '#' :: '#' :: ' ' :: t) =
          '#' :: '#' :: '#' :: '#' :: ' ' :: t := by
        apply strip_eq_self
        · intro c hc; simp only [List.head?_cons, Option.some.injEq] at hc; subst hc; rfl
        · intro c hc
          rw [getLast?_cons_ne _ _ (by simp), getLast?_cons_ne _ _ (by simp),
            getLast?_cons_ne _ _ (by simp), getLast?_cons_ne _ _ (by simp),
            getLast?_cons_ne _ _ hne] at hc
          exact hlast c hc
      show classifyDocx ('#' :: '#' :: '#' :: '#' :: ' ' :: t) = some (.heading 4 t)
      simp only [classifyDocx]
      rw [hstrip]
      exact rfl
  | para t =>
    obtain ⟨hne, hst, hh, _⟩ := hb
    cases t with
    | nil => exact absurd rfl hne
    | cons c cs =>
      have hc : c ≠ '#' := by
        intro h; exact hh (by rw [h]; rfl)
      have hcb : ('#' == c) = false := by
        rw [beq_eq_false_iff_ne]; exact fun h => hc h.symm
      show classifyDocx (c :: cs) = some (.para (c :: cs))
      simp only [classifyDocx]
      rw [hst]
      simp [startsWith, hcb]

theorem renderBlock_no_newline (b : Block) (hb : wfBlock b) : '\n' ∉ renderBlock b := by
  cases b with
  | heading l t =>
    obtain ⟨_, _, _, hnl⟩ := hb
    intro hm
    unfold renderBlock at hm
    rcases List.mem_append.mp hm with h | h
    · exact absurd (List.eq_of_mem_replicate h) (by decide)
    · rcases List.mem_cons.mp h with h | h
      · exact absurd h (by decide)
      · exact hnl h
  | para t =>
    obtain ⟨_, _, _, hnl⟩ := hb
    exact hnl

theorem filterMap_id_of_some (f : Block → Option Block) :
    ∀ (l : List Block), (∀ a ∈ l, f a = some a) → l.filterMap f = l := by
  intro l
  induction l with
  | nil => intro _; rfl
  | cons a t ih =>
    intro h
    rw [List.filterMap_cons, h a (by simp)]
    rw [ih (fun b hb => h b (List.mem_cons_of_mem _ hb))]

theorem startsWith_hash_of_marker4 (s : List Char)
    (h : startsWith ['#', '#', '#', '#', ' '] s = true) : startsWith ['#'] s = true := by
  obtain ⟨t, rfl⟩ := (startsWith_iff _ _).mp h
  rfl

theorem classifyPdf_eq_bind (raw : List Char) :
    classifyPdf raw = (classifyDocx raw).bind (fun b => if nonH4 b then some b else none) := by
  simp only [classifyPdf, classifyDocx]
  by_cases h0 : (strip raw).isEmpty = true
  · simp [h0]
  · simp only [h0, if_false]
    by_cases h1 : startsWith ['#', ' '] (strip raw) = true
    · simp [h0, h1, nonH4]
    · simp only [h1, if_false]
      by_cases h2 : startsWith ['#', '#', ' '] (strip raw) = true
      · simp [h0, h1, h2, nonH4]
      · simp only [h2, if_false]
        by_cases h3 : startsWith ['#', '#', '#', ' '] (strip raw) = true
        · simp [h0, h1, h2, h3, nonH4]
        · simp only [h3, if_false]
          by_cases h4 : startsWith ['#', '#', '#', '#', ' '] (strip raw) = true
          · have hh : startsWith ['#'] (strip raw) = true := startsWith_hash_of_marker4 _ h4
            simp [h0, h1, h2, h3, h4, hh, nonH4]
          · by_cases h5 : startsWith ['#'] (strip raw) = false
            · simp [h0, h1, h2, h3, h4, h5, nonH4]
            · simp [h0, h1, h2, h3, h4, h5, nonH4]

theorem filterMap_pdf_eq : ∀ (lines : List (List Char)),
    lines.filterMap classifyPdf = (lines.filterMap classifyDocx).filter nonH4 := by
  intro lines
  induction lines with
  | nil => rfl
  | cons l ls ih =>
    rw [List.filterMap_cons, List.filterMap_cons, classifyPdf_eq_bind l]
    cases h : classifyDocx l with
    | none => simpa using ih
    | some b =>
      cases hb : nonH4 b
      · simp [hb, ih, List.filter_cons]
      · simp [hb, ih, List.filter_cons]

theorem sanitizeTopic_chars (topic : List Char) :
    ∀ c ∈ sanitizeTopic topic, c.isAlphanum = true ∨ c = '-' ∨ c = '_' := by
  intro c hc
  unfold sanitizeTopic at hc
  have hc2 := List.mem_of_mem_take hc
  rw [List.mem_map] at hc2
  obtain ⟨a, ha, rfl⟩ := hc2
  rw [List.mem_filter] at ha
  have hp := ha.2
  by_cases hsp : (a == ' ') = true
  · rw [if_pos hsp]
    exact Or.inr (Or.inr rfl)
  · rw [if_neg hsp]
    simp only [Bool.or_eq_true, beq_iff_eq] at hp
    rcases hp with ((h | h) | h) | h
    · exact Or.inl h
    · exfalso; exact hsp (by rw [h]; exact rfl)
    · exact Or.inr (Or.inl h)
    · exact Or.inr (Or.inr h)

theorem sanitizeTopic_length (topic : List Char) : (sanitizeTopic topic).length ≤ 30 := by
  unfold sanitizeTopic
  exact List.length_take_le 30 _

theorem startsWith_refl (s : List Char) : startsWith s s = true := by
  rw [startsWith_iff]
  exact ⟨[], (List.append_nil s).symm⟩

theorem replaceAll_no_dot (p rep : List Char) : ∀ (s : List Char), '.' ∉ s →
    replaceAll ('.' :: p) rep (s ++ '.' :: p) = s ++ rep := by
  intro s
  induction s with
  | nil =>
    intro _
    rw [List.nil_append]
    have hcond : ((('.' :: p).length != 0) && startsWith ('.' :: p) ('.' :: p)) = true := by
      simp [startsWith_refl]
    rw [replaceAll, if_pos hcond]
    simp [List.drop_length, replaceAll]
  | cons a s ih =>
    intro hdot
    have ha : a ≠ '.' := fun h => hdot (by rw [h]; exact List.mem_cons_self _ _)
    have hba : ('.' == a) = false := beq_eq_false_iff_ne.mpr (fun h => ha h.symm)
    have hcond : ((('.' :: p).length != 0) &&
        startsWith ('.' :: p) (a :: (s ++ '.' :: p))) = false := by
      simp [startsWith, hba]
    simp only [List.cons_append]
    rw [replaceAll, hcond]
    simp only [Bool.false_eq_true, if_false]
    rw [ih (fun h => hdot (List.mem_cons_of_mem _ h))]

-- ## Claim theorems

/-- C10: parsing is idempotent on block structure — reconstructing a text from
the parsed block sequence (reapplying the original heading markers to heading
texts, keeping paragraph texts) and parsing the reconstruction yields exactly
the block sequence of the original parse. -/
theorem c10_parse_idempotent : ∀ (content : List Char),
    docxBlocks (reconstruct (docxBlocks content)) = docxBlocks content := by
  intro content
  have hwf : ∀ b ∈ docxBlocks content, wfBlock b := by
    intro b hb
    rw [docxBlocks, List.mem_filterMap] at hb
    obtain ⟨line, hline, hcl⟩ := hb
    exact classifyDocx_wf line (splitLines_no_newline content line hline) b hcl
  cases hbs : docxBlocks content with
  | nil => exact rfl
  | cons b bs =>
    have hwf2 : ∀ x ∈ b :: bs, wfBlock x := fun x hx => hwf x (by rw [hbs]; exact hx)
    have hnln : ∀ x ∈ (b :: bs).map renderBlock, '\n' ∉ x := by
      intro x hx
      rw [List.mem_map] at hx
      obtain ⟨blk, hblk, rfl⟩ := hx
      exact renderBlock_no_newline blk (hwf2 blk hblk)
    rw [reconstruct, docxBlocks, splitLines_joinLines _ (by simp) hnln, List.filterMap_map]
    apply filterMap_id_of_some
    intro a ha
    simp only [Function.comp_apply]
    exact classifyDocx_renderBlock a (hwf2 a ha)

/-- C1 counterexample: on the content "#### X" the rich-text emitter renders a
level-4 heading while the printable emitter renders nothing, so the two block
sequences differ. -/
theorem c1_parity_counterexample :
    docxBlocks (str "#### X") = [Block.heading 4 ['X']] ∧
    pdfBlocks (str "#### X") = [] :=
  ⟨rfl, rfl⟩

/-- C1 (amended): for every content text, the printable emitter renders exactly
the rich-text emitter's ordered block sequence with the level-4 headings
removed; headings of level 1-3 and paragraphs coincide one-to-one and in
order, but a level-4 heading is rendered only by the rich-text emitter. -/
theorem c1_parity_amended : ∀ (content : List Char),
    pdfBlocks content = (docxBlocks content).filter nonH4 :=
  fun content => filterMap_pdf_eq (splitLines content)

/-- C2: heading recognition obeys the exact 1-4 hash boundary — a (stripped)
line beginning with "#### " yields a level-4 heading whose text is everything
after the marker, and a line beginning with "#" that matches none of the four
recognised marker patterns is dropped entirely by both emission passes, never
emitted as a paragraph. -/
theorem c2_heading_boundary (rawLine : List Char) :
    (∀ t, strip rawLine = '#' :: '#' :: '#' :: '#' :: ' ' :: t →
      classifyDocx rawLine = some (Block.heading 4 t)) ∧
    ((strip rawLine).head? = some '#' → startsWithMarker (strip rawLine) = false →
      classifyDocx rawLine = none ∧ classifyPdf rawLine = none) := by
  constructor
  · intro t ht
    simp only [classifyDocx]
    rw [ht]
    exact rfl
  · intro hh hm
    simp only [startsWithMarker, Bool.or_eq_false_iff] at hm
    obtain ⟨⟨⟨hm1, hm2⟩, hm3⟩, hm4⟩ := hm
    cases hs : strip rawLine with
    | nil => rw [hs] at hh; exact absurd hh (by simp)
    | cons c cs =>
      rw [hs] at hh hm1 hm2 hm3 hm4
      simp only [List.head?_cons, Option.some.injEq] at hh
      subst hh
      simp only [startsWith, beq_self_eq_true, Bool.true_and] at hm1 hm2 hm3 hm4
      constructor
      · simp only [classifyDocx]
        rw [hs]
        simp [hm1, hm2, hm3, hm4, startsWith]
      · simp only [classifyPdf]
        rw [hs]
        simp [hm1, hm2, hm3, startsWith]

/-- C2 witness: "#### X" yields the level-4 heading "X"; "##### X" is dropped
by both passes. -/
theorem c2_heading_boundary_witness :
    classifyDocx (str "#### X") = some (Block.heading 4 ['X']) ∧
    classifyDocx (str "##### X") = none ∧ classifyPdf (str "##### X") = none :=
  ⟨(c2_heading_boundary (str "#### X")).1 ['X'] (by decide),
   ((c2_heading_boundary (str "##### X")).2 (by decide) (by decide)).1,
   ((c2_heading_boundary (str "##### X")).2 (by decide) (by decide)).2⟩

/-- C3 counterexample: when the rich-text (docx) emitter fails, both artifact
fields carry error descriptors, yet the run is reported "completed", not
"failed". -/
theorem c3_primary_failure_counterexample :
    (create_research_paper
      ⟨Res.ok [], Res.ok (str "# Title"), Res.err (str "disk full"), Res.ok (),
        str "20260101_120000", str "/home/user"⟩ (str "ai")).document_path =
      some (str "Document creation failed: disk full") ∧
    (create_research_paper
      ⟨Res.ok [], Res.ok (str "# Title"), Res.err (str "disk full"), Res.ok (),
        str "20260101_120000", str "/home/user"⟩ (str "ai")).pdf_path =
      some (str "PDF creation failed: disk full") ∧
    (create_research_paper
      ⟨Res.ok [], Res.ok (str "# Title"), Res.err (str "disk full"), Res.ok (),
        str "20260101_120000", str "/home/user"⟩ (str "ai")).status = "completed" ∧
    (create_research_paper
      ⟨Res.ok [], Res.ok (str "# Title"), Res.err (str "disk full"), Res.ok (),
        str "20260101_120000", str "/home/user"⟩ (str "ai")).status ≠ "failed" :=
  ⟨rfl, rfl, rfl, by decide⟩

/-- C3 (amended): if the rich-text (primary) emitter fails, both artifact
fields of the result become error descriptors, but the run is nonetheless
reported as completed — the stage marker advances to documents_complete and
the orchestrator never reports it failed. -/
theorem c3_primary_failure_amended (tav : Res (List TavilyItem)) (content e : List Char)
    (pdfOut : Res Unit) (ts cwd topic : List Char) :
    create_research_paper ⟨tav, Res.ok content, Res.err e, pdfOut, ts, cwd⟩ topic =
      { topic := topic,
        document_path := some (str "Document creation failed: " ++ e),
        pdf_path := some (str "PDF creation failed: " ++ e),
        paper_content := some content,
        error := none,
        status := "completed" } := rfl

/-- C4 counterexample: for topic "graph coloring" and a collector failure
"API timeout", the fallback bundle is the fixed failure message, which does
not contain the topic text. -/
theorem c4_fallback_counterexample :
    research_with_tavily (Res.err (str "API timeout")) (str "graph coloring") =
      str "Research failed: API timeout. Using AI knowledge instead." ∧
    containsText (str "graph coloring")
      (research_with_tavily (Res.err (str "API timeout")) (str "graph coloring")) = false :=
  ⟨rfl, by decide⟩

/-- C4 (amended): when the collector call raises, the research stage returns
the non-empty fallback bundle "Research failed: <error>. Using AI knowledge
instead." — the exception never propagates past the research boundary — and
the run still reaches the completed state provided generation and rendering
succeed; the fallback contains the error message but not the topic text. -/
theorem c4_fallback_amended (e topic content ts cwd : List Char) :
    research_with_tavily (Res.err e) topic =
      str "Research failed: " ++ e ++ str ". Using AI knowledge instead." ∧
    research_with_tavily (Res.err e) topic ≠ [] ∧
    (create_research_paper ⟨Res.err e, Res.ok content, Res.ok (), Res.ok (), ts, cwd⟩
      topic).status = "completed" := by
  refine ⟨rfl, ?_, rfl⟩
  intro h
  have hl := congrArg List.length h
  rw [research_with_tavily] at hl
  simp [List.length_append] at hl
  exact absurd hl.1 (by decide)

/-- C5: if the generation (write) stage raises, the failure is converted at
the orchestration boundary: the run stops with no artifacts, the result
carries status "failed" together with the error message, and no exception
escapes to the caller (the embedded pipeline is a total function). -/
theorem c5_generation_failure (tav : Res (List TavilyItem)) (e : List Char)
    (docxOut pdfOut : Res Unit) (ts cwd topic : List Char) :
    create_research_paper ⟨tav, Res.err e, docxOut, pdfOut, ts, cwd⟩ topic =
      { topic := topic, document_path := none, pdf_path := none,
        paper_content := none, error := some e, status := "failed" } := rfl

/-- C6: if only the printable (PDF) emitter fails while the rich-text emitter
succeeds, the render as a whole succeeds: the secondary field becomes the
descriptive error string, the primary field is the derived document path, and
the run is reported completed. -/
theorem c6_secondary_failure (tav : Res (List TavilyItem)) (content e ts cwd topic : List Char) :
    (create_research_paper ⟨tav, Res.ok content, Res.ok (), Res.err e, ts, cwd⟩ topic).status
        = "completed" ∧
    (create_research_paper ⟨tav, Res.ok content, Res.ok (), Res.err e, ts, cwd⟩ topic).pdf_path
        = some (str "PDF creation failed: " ++ e) ∧
    (create_research_paper ⟨tav, Res.ok content, Res.ok (), Res.err e, ts, cwd⟩
        topic).document_path
        = some ((cwd ++ str "/doc") ++ str "/" ++
            (str "research_paper_" ++ sanitizeTopic topic ++ str "_" ++ ts ++ str ".docx")) :=
  ⟨rfl, rfl, rfl⟩

/-- C7 counterexample: edit_paper performs no emptiness check — invoked
directly with an empty change request it still calls the generative service
and then re-renders both documents. -/
theorem c7_empty_revision_counterexample :
    (edit_paper ⟨Res.ok [], Res.ok (str "edited"), Res.ok (), Res.ok (),
        str "20260101_120000", str "/home/user"⟩ (str "old content") [] (str "t")).2 =
      [ExtCall.llmInvoke, ExtCall.renderDocs] := rfl

/-- C7 (amended): the empty-request rejection happens in the interactive
driver, before the revision operation is reached: a change round whose
stripped request is empty leaves the current session state unchanged and
performs no external call; edit_paper itself does not check for emptiness. -/
theorem c7_empty_revision_amended (env : Env) (current : RunResult) (raw : List Char)
    (h : strip raw = []) : main_edit_round env current raw = (current, []) := by
  simp only [main_edit_round, h]
  exact rfl

/-- C7 witness: the amended rejection applied to a whitespace-only request. -/
theorem c7_empty_revision_amended_witness :
    strip (str "   ") = [] ∧
    main_edit_round ⟨Res.ok [], Res.ok [], Res.ok (), Res.ok (), [], []⟩
      { topic := str "t", document_path := none, pdf_path := none,
        paper_content := none, error := none, status := "completed" } (str "   ") =
      (({ topic := str "t", document_path := none, pdf_path := none,
          paper_content := none, error := none, status := "completed" } : RunResult),
        ([] : List ExtCall)) :=
  ⟨by decide, c7_empty_revision_amended _ _ _ (by decide)⟩

/-- C8: the stage marker of the session state advances strictly forward
through start → research_complete → writing_complete → documents_complete: in
every run the trace of markers is a prefix of the canonical order with no
repetition; on generation failure the trace stops after research (nothing
executes past the failure), and otherwise every stage executes exactly once,
in order. -/
theorem c8_stage_order (env : Env) (topic : List Char) :
    ((runTrace env topic).map ResearchState.step =
      match env.llm with
      | Res.ok _ => canonicalSteps
      | Res.err _ => canonicalSteps.take 2) ∧
    (∃ n, (runTrace env topic).map ResearchState.step = canonicalSteps.take n) ∧
    ((runTrace env topic).map ResearchState.step).Nodup := by
  obtain ⟨tav, llm, dx, pd, ts, cwd⟩ := env
  cases llm with
  | ok content =>
    refine ⟨rfl, ⟨4, rfl⟩, ?_⟩
    have h : ((runTrace ⟨tav, Res.ok content, dx, pd, ts, cwd⟩ topic).map
        ResearchState.step) = canonicalSteps := rfl
    rw [h]
    decide
  | err e =>
    refine ⟨rfl, ⟨2, rfl⟩, ?_⟩
    have h : ((runTrace ⟨tav, Res.err e, dx, pd, ts, cwd⟩ topic).map
        ResearchState.step) = canonicalSteps.take 2 := rfl
    rw [h]
    decide

/-- C9: the sanitized filename base contains only letters, digits, hyphens and
underscores (every space converted to an underscore, every other character
removed), its length is at most 30 before the timestamp suffix, the document
path is the deterministic function of the topic shown (identical topics give
identical base names differing only by the timestamp), and the two artifacts
of one render share the same base name, differing only by the .docx/.pdf
extension — given that the strftime timestamp and the working directory
contain no dot. -/
theorem c9_filename (topic ts cwd content : List Char) (tav : Res (List TavilyItem))
    (llm : Res (List Char)) (hts : '.' ∉ ts) (hcwd : '.' ∉ cwd) :
    (∀ c ∈ sanitizeTopic topic, c.isAlphanum = true ∨ c = '-' ∨ c = '_') ∧
    (sanitizeTopic topic).length ≤ 30 ∧
    (create_documents ⟨tav, llm, Res.ok (), Res.ok (), ts, cwd⟩ content topic).document_path =
      (cwd ++ str "/doc") ++ str "/" ++
        (str "research_paper_" ++ sanitizeTopic topic ++ str "_" ++ ts ++ str ".docx") ∧
    ∃ base,
      (create_documents ⟨tav, llm, Res.ok (), Res.ok (), ts, cwd⟩ content topic).document_path =
        base ++ str ".docx" ∧
      (create_documents ⟨tav, llm, Res.ok (), Res.ok (), ts, cwd⟩ content topic).pdf_path =
        base ++ str ".pdf" := by
  refine ⟨sanitizeTopic_chars topic, sanitizeTopic_length topic, rfl, ?_⟩
  set base : List Char := (cwd ++ str "/doc") ++ str "/" ++
    (str "research_paper_" ++ sanitizeTopic topic ++ str "_" ++ ts) with hbase
  have hdot : '.' ∉ base := by
    intro hm
    rw [hbase] at hm
    simp only [List.mem_append] at hm
    have l1 : ¬ ('.' ∈ str "/doc") := by decide
    have l2 : ¬ ('.' ∈ str "/") := by decide
    have l3 : ¬ ('.' ∈ str "research_paper_") := by decide
    have l4 : ¬ ('.' ∈ str "_") := by decide
    have l5 : ¬ ('.' ∈ sanitizeTopic topic) := by
      intro h
      rcases sanitizeTopic_chars topic '.' h with h1 | h1 | h1
      · exact absurd h1 (by decide)
      · exact absurd h1 (by decide)
      · exact absurd h1 (by decide)
    tauto
  have harg : (cwd ++ str "/doc") ++ str "/" ++
      (str "research_paper_" ++ sanitizeTopic topic ++ str "_" ++ ts ++ str ".docx") =
      base ++ str ".docx" := by
    rw [hbase]
    simp [List.append_assoc]
  refine ⟨base, harg, ?_⟩
  show replaceAll (str ".docx") (str ".pdf")
      ((cwd ++ str "/doc") ++ str "/" ++
        (str "research_paper_" ++ sanitizeTopic topic ++ str "_" ++ ts ++ str ".docx")) =
      base ++ str ".pdf"
  rw [harg]
  have hpat : str ".docx" = '.' :: str "docx" := rfl
  rw [hpat]
  exact replaceAll_no_dot (str "docx") (str ".pdf") base hdot

/-- C9 witness: the filename properties at the concrete topic
"AI Research: A Study!", timestamp "20260101_120000" and working directory
"/root". -/
theorem c9_filename_witness :
    '.' ∉ str "20260101_120000" ∧ '.' ∉ str "/root" ∧
    ((∀ c ∈ sanitizeTopic (str "AI Research: A Study!"),
        c.isAlphanum = true ∨ c = '-' ∨ c = '_') ∧
     (sanitizeTopic (str "AI Research: A Study!")).length ≤ 30 ∧
     (create_documents ⟨Res.ok [], Res.ok [], Res.ok (), Res.ok (),
        str "20260101_120000", str "/root"⟩ [] (str "AI Research: A Study!")).document_path =
       (str "/root" ++ str "/doc") ++ str "/" ++
         (str "research_paper_" ++ sanitizeTopic (str "AI Research: A Study!") ++ str "_" ++
           str "20260101_120000" ++ str ".docx") ∧
     ∃ base,
       (create_documents ⟨Res.ok [], Res.ok [], Res.ok (), Res.ok (),
          str "20260101_120000", str "/root"⟩ [] (str "AI Research: A Study!")).document_path =
         base ++ str ".docx" ∧
       (create_documents ⟨Res.ok [], Res.ok [], Res.ok (), Res.ok (),
          str "20260101_120000", str "/root"⟩ [] (str "AI Research: A Study!")).pdf_path =
         base ++ str ".pdf") :=
  ⟨by decide, by decide,
   c9_filename (str "AI Research: A Study!") (str "20260101_120000") (str "/root") []
     (Res.ok []) (Res.ok []) (by decide) (by decide)⟩
